import Mathlib

/-!
Verification of `fb_post.py` (Facebook auto-post from text/word files).

The source is shallowly embedded: file contents, directory listings,
environment variables and HTTP responses are passed in explicitly, and every
function of the script that the specification's claims mention is translated
into a computable Lean definition over those inputs.

String primitives (`strip`, `split`, `join`, `upper`, ...) are modelled over
`List Char` (Python strings are sequences of code points).  Python string
methods handle some Unicode cases (non-ASCII whitespace, non-ASCII case
mappings) that the models restrict to the ASCII range; the script's directive
and configuration syntax is ASCII.
-/

/-- Characters treated as whitespace by Python's `str.strip()` (ASCII range). -/
def isPySpace (c : Char) : Bool :=
  c = ' ' || c = '\t' || c = '\n' || c = '\r' || c = '\x0B' || c = '\x0C'

/-- `str.lstrip()`: remove leading whitespace. -/
def lstripL (l : List Char) : List Char := l.dropWhile isPySpace

/-- `str.rstrip()`: remove trailing whitespace. -/
def rstripL (l : List Char) : List Char := (l.reverse.dropWhile isPySpace).reverse

/-- `str.strip()`: remove whitespace at both ends. -/
def stripL (l : List Char) : List Char := lstripL (rstripL l)

/-- `str.strip()` on `String`. -/
def pyStrip (s : String) : String := ⟨stripL s.data⟩

/-- `str.split(sep)` for a one-character separator: no collapsing of empty
fields, and splitting the empty string yields `[""]`. -/
def splitC (c : Char) : List Char → List (List Char)
  | [] => [[]]
  | a :: t =>
    match splitC c t with
    | [] => [[]]
    | s :: ss => if a = c then [] :: s :: ss else (a :: s) :: ss

/-- `sep.join(...)` for a one-character separator. -/
def joinC (c : Char) : List (List Char) → List Char
  | [] => []
  | [x] => x
  | x :: y :: ys => x ++ c :: joinC c (y :: ys)

/-- `str.split(sep)` on `String`. -/
def pySplit (c : Char) (s : String) : List String :=
  (splitC c s.data).map fun l => (⟨l⟩ : String)

/-- `str.lower()` (ASCII case mapping). -/
def pyLower (s : String) : String := ⟨s.data.map Char.toLower⟩

/-! ## Page Registry — `load_facebook_pages` (src lines 37–80) -/

/-- One destination page: the dict `{'page_id', 'token', 'name'}` built at
src lines 73–77. -/
structure Page where
  page_id : String
  token : String
  name : String
deriving DecidableEq

/-- The body of the `for line_num, line in enumerate(f, 1)` loop of
`load_facebook_pages` (src lines 49–78): `none` when the line is skipped
(blank, comment, malformed, or unresolvable `$` placeholder), otherwise the
accepted `Page`. -/
def processConfigLine (env : String → Option String) (rawLine : String) : Option Page :=
  let line := pyStrip rawLine
  if line = "" then none
  else if line.data.head? = some '#' then none
  else
    let parts : List String := (splitC '|' line.data).map fun p => (⟨p⟩ : String)
    match parts with
    | p0 :: p1 :: rest =>
      let page_id := pyStrip p0
      let token0 := pyStrip p1
      let name :=
        match rest with
        | p2 :: _ => pyStrip p2
        | [] => "Page_" ++ page_id
      if token0.data.head? = some '$' then
        let envVar : String := ⟨token0.data.tail⟩
        let token := (env envVar).getD ""
        if token = "" then none
        else some { page_id := page_id, token := token, name := name }
      else
        some { page_id := page_id, token := token0, name := name }
    | _ => none

/-- `load_facebook_pages` (src lines 37–80).  The file is supplied as its list
of lines together with an existence flag; the environment as a partial map. -/
def load_facebook_pages (configExists : Bool) (lines : List String)
    (env : String → Option String) : List Page :=
  if configExists then lines.filterMap (processConfigLine env) else []

/-! ## Content Parser — `parse_post_content` (src lines 104–137) -/

/-- The dict `{'text', 'images'}` returned by `parse_post_content`. -/
structure ParsedContent where
  text : String
  images : List String
deriving DecidableEq

/-- `line.strip().upper().startswith('IMAGE:')` (src line 126). -/
def isImageDirective (line : String) : Bool :=
  "IMAGE:".data.isPrefixOf ((stripL line.data).map Char.toUpper)

/-- `line_stripped[6:].strip()` (src line 127). -/
def imageFileName (line : String) : String := ⟨stripL ((stripL line.data).drop 6)⟩

/-- The `for line in lines` loop of `parse_post_content` (src lines 122–130):
returns the pair `(images, text_lines)`, both in encounter order. -/
def splitImageLines : List String → List String × List String
  | [] => ([], [])
  | l :: ls =>
    let r := splitImageLines ls
    if isImageDirective l then (imageFileName l :: r.1, r.2) else (r.1, l :: r.2)

/-- `parse_post_content` (src lines 104–137). -/
def parse_post_content (content : String) : ParsedContent :=
  let lines := (splitC '\n' content.data).map fun l => (⟨l⟩ : String)
  let r := splitImageLines lines
  { text := ⟨stripL (joinC '\n' (r.2.map String.data))⟩, images := r.1 }

/-! ## Post Loader — `get_all_post_files`, `load_post_from_file`
(src lines 139–196) -/

/-- Lexicographic (code-point) order on char lists: Python's `<=` on `str`,
as used by `list.sort()` on the file paths. -/
def lexLe : List Char → List Char → Bool
  | [], _ => true
  | _ :: _, [] => false
  | a :: as, b :: bs => if a = b then lexLe as bs else decide (a < b)

/-- Python string order on `String`. -/
def strLe (s t : String) : Prop := lexLe s.data t.data = true

instance strLe.decRel : DecidableRel strLe := fun s t =>
  inferInstanceAs (Decidable (lexLe s.data t.data = true))

/-- Model of `glob.glob(os.path.join(dirName, "*" ++ ext))`: the directory's
entries whose name ends with `ext` and does not start with a dot (glob's `*`
does not match a leading dot), each joined to the directory with `/`.  `glob`
returns these in unspecified directory order; the caller sorts. -/
def globExt (dirName : String) (dirFiles : List String) (ext : String) : List String :=
  (dirFiles.filter fun f =>
      ext.data.isSuffixOf f.data && !(f.data.head? == some '.')).map
    fun f => dirName ++ "/" ++ f

/-- `get_all_post_files` (src lines 139–155): glob `*.txt`, then `*.docx` when
docx support is available, then `files.sort()`.  Python's `list.sort()` is a
stable sort under `<=`; on a list of strings insertion sort under the same
total order computes the identical result. -/
def get_all_post_files (dirName : String) (dirFiles : List String)
    (docxSupport : Bool) : List String :=
  let txtFiles := globExt dirName dirFiles ".txt"
  let docxFiles := if docxSupport then globExt dirName dirFiles ".docx" else []
  List.insertionSort strLe (txtFiles ++ docxFiles)

/-- `os.path.basename` (final `/`-separated segment). -/
def basenameS (path : String) : String :=
  ⟨((splitC '/' path.data).getLast?).getD []⟩

/-- The extension part of `os.path.splitext(path)` : everything from the last
dot of the basename, except that leading dots of the basename never start an
extension. -/
def splitextExt (path : String) : String :=
  let base := ((splitC '/' path.data).getLast?).getD []
  let core := base.dropWhile (· = '.')
  if core.contains '.' then ⟨'.' :: (core.reverse.takeWhile (· ≠ '.')).reverse⟩
  else ""

/-- The dict `{'filename', 'text', 'images'}` returned by
`load_post_from_file` (src lines 192–196). -/
structure PostData where
  filename : String
  text : String
  images : List String
deriving DecidableEq

/-- `load_post_from_file` (src lines 157–196).  `fileContent` is the read
oracle: the text returned by `read_text_file` / `read_docx_file` for a path,
`none` on a read failure (for a `.docx` file it is the newline-join of the
non-blank paragraphs).  When docx support is missing, `read_docx_file`
returns `None` (src lines 93–94).  A falsy (empty or failed) read and an
empty parsed body both make the loader drop the file. -/
def load_post_from_file (fileContent : String → Option String) (docxSupport : Bool)
    (filepath : String) : Option PostData :=
  let filename := basenameS filepath
  let ext := pyLower (splitextExt filepath)
  let content : Option String :=
    if ext = ".txt" then fileContent filepath
    else if ext = ".docx" then (if docxSupport then fileContent filepath else none)
    else none
  match content with
  | none => none
  | some c =>
    if c = "" then none
    else
      let parsed := parse_post_content c
      if parsed.text = "" then none
      else some { filename := filename, text := parsed.text, images := parsed.images }

/-! ## Publisher — class `FacebookPoster` (src lines 200–337) -/

/-- The slice of a decoded JSON response that the script inspects: whether an
`'id'` key is present (and its string value), and whether an `'error'` object
with a `'message'` key is present. -/
structure ApiErrorObj where
  message? : Option String
deriving DecidableEq

/-- A decoded Graph API response, restricted to the inspected fields. -/
structure ApiResponse where
  id? : Option String
  error? : Option ApiErrorObj
deriving DecidableEq

/-- `upload_photo` (src lines 230–258): `None` when the local file is missing;
otherwise the response's `'id'` value when present, else `None`.  Transport
exceptions are modelled as a response without `'id'`. -/
def upload_photo (fileExists : Bool) (resp : ApiResponse) : Option String :=
  if fileExists then resp.id? else none

/-- The per-target network behaviour one `FacebookPoster` observes: local
image existence, and the decoded response of each endpoint call. -/
structure PosterEnv where
  imageExists : String → Bool
  uploadResponse : String → ApiResponse
  withPhotosResponse : String → List String → ApiResponse
  textOnlyResponse : String → ApiResponse

/-- The upload loop of `FacebookPoster.post` (src lines 306–311): upload each
path in order, appending each truthy returned photo id (Python `if photo_id:`
also drops an empty-string id). -/
def collectPhotoIds (env : PosterEnv) : List String → List String
  | [] => []
  | p :: ps =>
    match upload_photo (env.imageExists p) (env.uploadResponse p) with
    | some pid => if pid = "" then collectPhotoIds env ps else pid :: collectPhotoIds env ps
    | none => collectPhotoIds env ps

/-- The dict returned by `FacebookPoster.post` (src lines 326–337). -/
structure PostResult where
  success : Bool
  post_id? : Option String
  url? : Option String
  error? : Option String
deriving DecidableEq

/-- Left brace character (code point 123). -/
def lbrace : Char := Char.ofNat 123

/-- Right brace character (code point 125). -/
def rbrace : Char := Char.ofNat 125

/-- Lower-case hexadecimal digit. -/
def hexDigitChar (n : Nat) : Char :=
  if n < 10 then Char.ofNat (48 + n) else Char.ofNat (87 + n)

/-- The quote character CPython `repr` picks for a `str`: `'` unless the
string contains `'` and no `"`. -/
def pyReprQuoteChar (l : List Char) : Char :=
  if l.contains '\'' && !(l.contains '"') then '"' else '\''

/-- CPython `repr` escaping of one character under quote choice `q`.
Non-printable code points above ASCII are not modelled (emitted as-is, like
printable ones). -/
def pyReprEsc (q c : Char) : List Char :=
  if c = '\\' || c = q then ['\\', c]
  else if c = '\n' then ['\\', 'n']
  else if c = '\r' then ['\\', 'r']
  else if c = '\t' then ['\\', 't']
  else if c.toNat < 32 || c.toNat = 127 then
    ['\\', 'x', hexDigitChar (c.toNat / 16), hexDigitChar (c.toNat % 16)]
  else [c]

/-- CPython `repr`/`str` of a `str` value. -/
def pyRepr (s : String) : String :=
  let q := pyReprQuoteChar s.data
  ⟨q :: ((s.data.map (pyReprEsc q)).flatten ++ [q])⟩

/-- Join char lists with a multi-character separator. -/
def joinSep (sep : List Char) : List (List Char) → List Char
  | [] => []
  | [x] => x
  | x :: y :: ys => x ++ sep ++ joinSep sep (y :: ys)

/-- Python `str(attached_media)` where
`attached_media = [{'media_fbid': pid} for pid in photo_ids]`
(src lines 279–282; the `len == 1` branch there builds the same
single-element list the comprehension does). -/
def pyStrMediaList (photo_ids : List String) : String :=
  ⟨'[' :: (joinSep ", ".data (photo_ids.map fun pid =>
      lbrace :: ("'media_fbid': ".data ++ (pyRepr pid).data ++ [rbrace])) ++ [']'])⟩

/-- The character map of `.replace("'", '"')`: every `'` becomes `"`. -/
def quoteSwap (c : Char) : Char := if c = '\'' then '"' else c

/-- `.replace("'", '"')` for the one-character pattern and replacement used at
src line 286. -/
def replaceQuotes (s : String) : String := ⟨s.data.map quoteSwap⟩

/-- The `attached_media` form field sent by `post_with_photos`
(src line 286): `str(attached_media).replace("'", '"')`. -/
def attachedMediaField (photo_ids : List String) : String :=
  replaceQuotes (pyStrMediaList photo_ids)

/-- The form data of the feed request built by `post_with_photos`
(src lines 284–288); `post_text_only` (src lines 263–266) sends no
`attached_media` field. -/
structure FeedRequest where
  message : String
  attached_media? : Option String
deriving DecidableEq

/-- The request `post_with_photos` sends (src lines 274–294). -/
def post_with_photos_request (message : String) (photo_ids : List String) : FeedRequest :=
  { message := message, attached_media? := some (attachedMediaField photo_ids) }

/-- `FacebookPoster.post` (src lines 296–337): upload images (skipping
failures), choose the with-photos feed call iff any photo id was collected,
then interpret the response: an `'id'` key means success with the derived
URL, otherwise the error message (or a generic one) is reported. -/
def FacebookPoster.post (env : PosterEnv) (message : String)
    (image_paths : Option (List String)) : PostResult :=
  let photo_ids := collectPhotoIds env (image_paths.getD [])
  let result :=
    if photo_ids.isEmpty then env.textOnlyResponse message
    else env.withPhotosResponse message photo_ids
  match result.id? with
  | some post_id =>
    { success := true, post_id? := some post_id,
      url? := some ("https://facebook.com/" ++ post_id), error? := none }
  | none =>
    { success := false, post_id? := none, url? := none,
      error? := some (match result.error? with
        | some e => e.message?.getD "Unknown error"
        | none => "Unknown error") }

/-! ## JSON serialization (spec side, for the wire-format claim) -/

/-- `\uXXXX` escape (16-bit). -/
def uEsc4 (n : Nat) : List Char :=
  ['\\', 'u', hexDigitChar (n / 4096 % 16), hexDigitChar (n / 256 % 16),
   hexDigitChar (n / 16 % 16), hexDigitChar (n % 16)]

/-- `\u` escape of a code point, with a surrogate pair above `0xFFFF`. -/
def uEscape (c : Char) : List Char :=
  if c.toNat < 65536 then uEsc4 c.toNat
  else uEsc4 (55296 + (c.toNat - 65536) / 1024) ++ uEsc4 (56320 + (c.toNat - 65536) % 1024)

/-- JSON string escaping of one character, as `json.dumps` (default
`ensure_ascii=True`) produces it. -/
def jsonEscChar (c : Char) : List Char :=
  if c = '"' || c = '\\' then ['\\', c]
  else if c = '\n' then ['\\', 'n']
  else if c = '\t' then ['\\', 't']
  else if c = '\r' then ['\\', 'r']
  else if c.toNat = 8 then ['\\', 'b']
  else if c.toNat = 12 then ['\\', 'f']
  else if c.toNat < 32 then
    ['\\', 'u', '0', '0', hexDigitChar (c.toNat / 16), hexDigitChar (c.toNat % 16)]
  else if c.toNat < 128 then [c]
  else uEscape c

/-- Modelled from the spec: the JSON serialization of the array of single-key
objects `[{"media_fbid": "<id>"}, ...]` (one per uploaded photo, in upload
order) that the spec names as the compatibility contract for the
`attached_media` field, rendered as `json.dumps` with its default `', '` item
separator and `': '` key separator would render it. -/
def jsonAttachedMedia (photo_ids : List String) : String :=
  ⟨'[' :: (joinSep ", ".data (photo_ids.map fun pid =>
      lbrace :: ("\"media_fbid\": \"".data ++ (pid.data.map jsonEscChar).flatten
        ++ ('"' :: [rbrace]))) ++ [']'])⟩

/-! ## Orchestrator — `main` (src lines 341–462) -/

/-- Everything outside the process that one run of `main` observes, passed in
explicitly: the file system, the configuration file, the environment, and the
decoded response of every network call. -/
structure World where
  postsDirExists : Bool
  configExists : Bool
  configLines : List String
  env : String → Option String
  connOk : Page → Bool
  postsDirFiles : List String
  docxSupport : Bool
  fileContent : String → Option String
  imageExists : String → Bool
  uploadResponse : Page → String → ApiResponse
  withPhotosResponse : Page → String → List String → ApiResponse
  textOnlyResponse : Page → String → ApiResponse

/-- The `PosterEnv` of the `FacebookPoster` built for one page (src line 371). -/
def posterEnvOf (w : World) (p : Page) : PosterEnv :=
  { imageExists := w.imageExists, uploadResponse := w.uploadResponse p,
    withPhotosResponse := w.withPhotosResponse p,
    textOnlyResponse := w.textOnlyResponse p }

/-- `pages` (src line 359). -/
def pagesOf (w : World) : List Page :=
  load_facebook_pages w.configExists w.configLines w.env

/-- `valid_pages` (src lines 369–373): pages whose `test_connection` succeeds. -/
def validPagesOf (w : World) : List Page := (pagesOf w).filter w.connOk

/-- `post_files` (src line 383). -/
def postFilesOf (w : World) : List String :=
  get_all_post_files "posts" w.postsDirFiles w.docxSupport

/-- `posts` (src lines 393–397). -/
def postsOf (w : World) : List PostData :=
  (postFilesOf w).filterMap (load_post_from_file w.fileContent w.docxSupport)

/-- The image-path resolution loop (src lines 418–424): join each referenced
filename to `images/`, keep it iff the file exists, warn and drop otherwise. -/
def resolveImagePaths (w : World) (images : List String) : List String :=
  images.filterMap fun img =>
    let img_path := "images/" ++ img
    if w.imageExists img_path then some img_path else none

/-- One `poster.post(...)` call of the publishing loop (src line 428): the
resolved image paths are passed, or `None` when the resolved list is empty. -/
def pairResult (w : World) (pg : Page) (post : PostData) : PostResult :=
  let image_paths := resolveImagePaths w post.images
  FacebookPoster.post (posterEnvOf w pg) post.text
    (if image_paths.isEmpty then none else some image_paths)

/-- `total_failed` accumulated by the publishing loop (src lines 410–433). -/
def totalFailedOf (w : World) : Nat :=
  ((postsOf w).map fun post =>
    ((validPagesOf w).map fun pg =>
      if (pairResult w pg post).success then 0 else 1).sum).sum

/-- `total_success` accumulated by the publishing loop (src lines 410–433). -/
def totalSuccessOf (w : World) : Nat :=
  ((postsOf w).map fun post =>
    ((validPagesOf w).map fun pg =>
      if (pairResult w pg post).success then 1 else 0).sum).sum

/-- The exit code of `main` (src lines 341–450): each fatal precondition
exits `1`; a run that reaches the summary exits `1` iff `total_failed > 0`
(falling off the end of `main` exits `0`). -/
def mainExit (w : World) : Nat :=
  if !w.postsDirExists then 1
  else if pagesOf w = [] then 1
  else if validPagesOf w = [] then 1
  else if postFilesOf w = [] then 1
  else if postsOf w = [] then 1
  else if 0 < totalFailedOf w then 1 else 0

/-- How the `if __name__ == "__main__"` wrapper (src lines 452–462) ended:
`main` returned or called `sys.exit` with a code, or it was stopped by
`KeyboardInterrupt`, or it raised some other exception. -/
inductive MainOutcome where
  | normal (code : Nat)
  | interrupted
  | fatalError
deriving DecidableEq

/-- The process exit code produced by the wrapper (src lines 452–462):
a `KeyboardInterrupt` exits `0`, any other exception exits `1`. -/
def topLevelExitCode : MainOutcome → Nat
  | .normal code => code
  | .interrupted => 0
  | .fatalError => 1


/-! ## Lemmas about the string primitives -/

theorem lstripL_cons_space {a : Char} (l : List Char) (ha : isPySpace a = true) :
    lstripL (a :: l) = lstripL l := by
  simp [lstripL, List.dropWhile_cons, ha]

theorem lstripL_cons_nospace {a : Char} (l : List Char) (ha : isPySpace a = false) :
    lstripL (a :: l) = a :: l := by
  simp [lstripL, List.dropWhile_cons, ha]

theorem lstripL_idem (l : List Char) : lstripL (lstripL l) = lstripL l := by
  induction l with
  | nil => rfl
  | cons a t ih =>
    by_cases ha : isPySpace a = true
    · rw [lstripL_cons_space t ha, ih]
    · rw [lstripL_cons_nospace t (by simpa using ha),
        lstripL_cons_nospace t (by simpa using ha)]

theorem lstripL_eq_nil_iff (l : List Char) :
    lstripL l = [] ↔ ∀ c ∈ l, isPySpace c = true := List.dropWhile_eq_nil_iff

theorem rstripL_eq_nil_iff (l : List Char) :
    rstripL l = [] ↔ ∀ c ∈ l, isPySpace c = true := by
  rw [rstripL, List.reverse_eq_nil_iff, List.dropWhile_eq_nil_iff]
  constructor
  · intro h c hc
    exact h c (List.mem_reverse.mpr hc)
  · intro h c hc
    exact h c (List.mem_reverse.mp hc)

theorem rstripL_reverse (l : List Char) : rstripL (List.reverse l) = List.reverse (lstripL l) := by
  simp [rstripL, lstripL]

theorem lstripL_reverse (l : List Char) : lstripL (List.reverse l) = List.reverse (rstripL l) := by
  simp [rstripL, lstripL]

theorem rstripL_idem (l : List Char) : rstripL (rstripL l) = rstripL l := by
  have h1 : rstripL l = (lstripL l.reverse).reverse := by
    rw [lstripL_reverse, List.reverse_reverse]
  rw [h1, rstripL_reverse, lstripL_idem]

theorem rstripL_cons (a : Char) (l : List Char) :
    rstripL (a :: l) =
      if rstripL l = [] then (if isPySpace a then [] else [a]) else a :: rstripL l := by
  show (List.dropWhile isPySpace (List.reverse (a :: l))).reverse = _
  rw [List.reverse_cons, List.dropWhile_append]
  by_cases h : rstripL l = []
  · have he : (List.dropWhile isPySpace l.reverse).isEmpty = true := by
      have : List.dropWhile isPySpace l.reverse = [] := by
        have := (rstripL_eq_nil_iff l).mp h
        rw [List.dropWhile_eq_nil_iff]
        intro c hc
        exact this c (List.mem_reverse.mp hc)
      simp [this]
    rw [if_pos he, if_pos h]
    by_cases ha : isPySpace a = true <;> simp [List.dropWhile_cons, ha]
  · have he : ¬ (List.dropWhile isPySpace l.reverse).isEmpty = true := by
      intro hc
      apply h
      show (List.dropWhile isPySpace l.reverse).reverse = []
      simp only [List.isEmpty_iff] at hc
      simp [hc]
    rw [if_neg he, if_neg h]
    simp [rstripL]

theorem lstrip_rstrip_comm (l : List Char) :
    lstripL (rstripL l) = rstripL (lstripL l) := by
  induction l with
  | nil => rfl
  | cons a t ih =>
    by_cases ha : isPySpace a = true
    · rw [rstripL_cons, lstripL_cons_space t ha]
      by_cases h : rstripL t = []
      · rw [if_pos h, if_pos ha]
        have ht : lstripL t = [] := by
          rw [lstripL_eq_nil_iff]
          exact (rstripL_eq_nil_iff t).mp h
        rw [ht]
        rfl
      · rw [if_neg h, lstripL_cons_space _ ha, ih]
    · have ha' : isPySpace a = false := by simpa using ha
      rw [rstripL_cons, lstripL_cons_nospace t ha']
      by_cases h : rstripL t = []
      · rw [if_pos h, if_neg (by simp [ha']), rstripL_cons, h, if_pos rfl, if_neg (by simp [ha'])]
        rw [lstripL_cons_nospace _ ha']
      · rw [if_neg h, lstripL_cons_nospace _ ha', rstripL_cons, if_neg h]

theorem stripL_eq_rl (l : List Char) : stripL l = rstripL (lstripL l) :=
  lstrip_rstrip_comm l

theorem stripL_idem (l : List Char) : stripL (stripL l) = stripL l := by
  show lstripL (rstripL (lstripL (rstripL l))) = lstripL (rstripL l)
  rw [← lstrip_rstrip_comm, rstripL_idem, lstripL_idem]

theorem stripL_cons_space {a : Char} (l : List Char) (ha : isPySpace a = true) :
    stripL (a :: l) = stripL l := by
  rw [stripL_eq_rl, lstripL_cons_space l ha, ← stripL_eq_rl]

theorem stripL_reverse (l : List Char) : stripL (List.reverse l) = List.reverse (stripL l) := by
  show lstripL (rstripL (List.reverse l)) = List.reverse (lstripL (rstripL l))
  rw [rstripL_reverse, lstripL_reverse, ← lstrip_rstrip_comm]

theorem splitC_ne_nil (c : Char) (l : List Char) : splitC c l ≠ [] := by
  cases l with
  | nil => simp [splitC]
  | cons a t =>
    simp only [splitC]
    cases h : splitC c t with
    | nil => simp
    | cons s ss =>
      by_cases hac : a = c <;> simp [hac]

theorem splitC_cons (c a : Char) (t : List Char) :
    splitC c (a :: t) =
      if a = c then [] :: splitC c t
      else (a :: (splitC c t).headI) :: (splitC c t).tail := by
  cases h : splitC c t with
  | nil => exact absurd h (splitC_ne_nil c t)
  | cons s ss =>
    by_cases hac : a = c <;> simp [splitC, h, hac]

theorem joinC_splitC (c : Char) (l : List Char) : joinC c (splitC c l) = l := by
  induction l with
  | nil => rfl
  | cons a t ih =>
    simp only [splitC]
    cases h : splitC c t with
    | nil => exact absurd h (splitC_ne_nil c t)
    | cons s ss =>
      rw [h] at ih
      by_cases hac : a = c
      · subst hac
        simp only [if_pos rfl]
        cases ss with
        | nil => simpa [joinC] using congrArg (a :: ·) ih
        | cons z zs => simpa [joinC] using congrArg (a :: ·) ih
      · simp only [if_neg hac]
        cases ss with
        | nil => simpa [joinC] using congrArg (a :: ·) ih
        | cons z zs => simpa [joinC] using congrArg (a :: ·) ih

theorem not_mem_of_mem_splitC (c : Char) (l : List Char) :
    ∀ x ∈ splitC c l, c ∉ x := by
  induction l with
  | nil => intro x hx; simp [splitC] at hx; simp [hx]
  | cons a t ih =>
    intro x hx
    rw [splitC_cons] at hx
    by_cases hac : a = c
    · rw [if_pos hac] at hx
      rcases List.mem_cons.mp hx with h1 | h2
      · simp [h1]
      · exact ih x h2
    · rw [if_neg hac] at hx
      cases h : splitC c t with
      | nil => exact absurd h (splitC_ne_nil c t)
      | cons s ss =>
        rw [h] at hx
        have ihs : c ∉ s := ih s (by rw [h]; exact List.mem_cons_self s ss)
        rcases List.mem_cons.mp hx with h1 | h2
        · subst h1
          intro hm
          rcases List.mem_cons.mp hm with h3 | h4
          · exact hac h3.symm
          · exact ihs (by simpa using h4)
        · exact ih x (by rw [h]; exact List.mem_cons_of_mem s (by simpa using h2))

theorem splitC_of_not_mem {c : Char} {l : List Char} (h : c ∉ l) :
    splitC c l = [l] := by
  induction l with
  | nil => rfl
  | cons a t ih =>
    have hac : ¬ a = c := fun he => h (he ▸ List.mem_cons_self a t)
    have ht : c ∉ t := fun hm => h (List.mem_cons_of_mem a hm)
    simp only [splitC, ih ht, if_neg hac]

theorem splitC_append_sep {c : Char} {x : List Char} (r : List Char) (h : c ∉ x) :
    splitC c (x ++ c :: r) = x :: splitC c r := by
  induction x with
  | nil =>
    simp only [List.nil_append, splitC]
    cases hr : splitC c r with
    | nil => exact absurd hr (splitC_ne_nil c r)
    | cons s ss => simp
  | cons a t ih =>
    have hac : ¬ a = c := fun he => h (he ▸ List.mem_cons_self a t)
    have ht : c ∉ t := fun hm => h (List.mem_cons_of_mem a hm)
    rw [List.cons_append, splitC_cons, if_neg hac, ih ht]
    simp

theorem splitC_joinC (c : Char) (xss : List (List Char)) (hne : xss ≠ [])
    (h : ∀ x ∈ xss, c ∉ x) : splitC c (joinC c xss) = xss := by
  induction xss with
  | nil => exact absurd rfl hne
  | cons x ys ih =>
    cases ys with
    | nil =>
      simp only [joinC]
      exact splitC_of_not_mem (h x (List.mem_cons_self x []))
    | cons y zs =>
      have hx : c ∉ x := h x (List.mem_cons_self x (y :: zs))
      show splitC c (x ++ c :: joinC c (y :: zs)) = x :: y :: zs
      rw [splitC_append_sep _ hx]
      rw [ih (by simp) (fun z hz => h z (List.mem_cons_of_mem x hz))]

/-- Apply a function to the last element of a list. -/
def modLast (f : List Char → List Char) : List (List Char) → List (List Char)
  | [] => []
  | [x] => [f x]
  | x :: y :: ys => x :: modLast f (y :: ys)

theorem modLast_append_single (f : List Char → List Char) (u : List (List Char))
    (x : List Char) : modLast f (u ++ [x]) = u ++ [f x] := by
  induction u with
  | nil => rfl
  | cons a t ih =>
    cases t with
    | nil => rfl
    | cons b bs => simpa [modLast] using ih

theorem splitC_append_single (c a : Char) (m : List Char) :
    splitC c (m ++ [a]) =
      if a = c then splitC c m ++ [[]] else modLast (· ++ [a]) (splitC c m) := by
  induction m with
  | nil =>
    by_cases hac : a = c <;> simp [splitC, hac, modLast]
  | cons b t ih =>
    rw [List.cons_append, splitC_cons, splitC_cons, ih]
    by_cases hac : a = c
    · rw [if_pos hac, if_pos hac]
      by_cases hbc : b = c
      · rw [if_pos hbc, if_pos hbc]
        simp
      · rw [if_neg hbc, if_neg hbc]
        cases h : splitC c t with
        | nil => exact absurd h (splitC_ne_nil c t)
        | cons s ss => simp
    · rw [if_neg hac, if_neg hac]
      by_cases hbc : b = c
      · rw [if_pos hbc, if_pos hbc]
        cases h : splitC c t with
        | nil => exact absurd h (splitC_ne_nil c t)
        | cons s ss =>
          cases ss with
          | nil => simp [modLast]
          | cons z zs => simp [modLast]
      · rw [if_neg hbc, if_neg hbc]
        cases h : splitC c t with
        | nil => exact absurd h (splitC_ne_nil c t)
        | cons s ss =>
          cases ss with
          | nil => simp [modLast]
          | cons z zs => simp [modLast]

theorem splitC_reverse (c : Char) (l : List Char) :
    splitC c l.reverse = ((splitC c l).map List.reverse).reverse := by
  induction l with
  | nil => rfl
  | cons a t ih =>
    rw [List.reverse_cons, splitC_append_single, splitC_cons, ih]
    by_cases hac : a = c
    · rw [if_pos hac, if_pos hac]
      simp
    · rw [if_neg hac, if_neg hac]
      cases h : splitC c t with
      | nil => exact absurd h (splitC_ne_nil c t)
      | cons s ss =>
        simp [modLast_append_single]

/-- A property of lines that only depends on the stripped line survives
left-stripping the joined text: every line of `lstripL l` has the stripped
form of some line of `l`. -/
theorem splitC_lstrip_pred (c : Char) (_hc : isPySpace c = true) (N : List Char → Prop)
    (HN : ∀ x y, stripL x = stripL y → N x → N y) :
    ∀ l : List Char, (∀ x ∈ splitC c l, N x) → ∀ x ∈ splitC c (lstripL l), N x := by
  intro l
  induction l with
  | nil => intro h x hx; exact h x hx
  | cons a t ih =>
    intro h x hx
    by_cases ha : isPySpace a = true
    · rw [lstripL_cons_space t ha] at hx
      apply ih _ x hx
      intro y hy
      rw [splitC_cons] at h
      by_cases hac : a = c
      · rw [if_pos hac] at h
        exact h y (List.mem_cons_of_mem [] hy)
      · rw [if_neg hac] at h
        cases hs : splitC c t with
        | nil => exact absurd hs (splitC_ne_nil c t)
        | cons s ss =>
          rw [hs] at h hy
          rcases List.mem_cons.mp hy with h1 | h2
          · subst h1
            refine HN (a :: y) y ?_ (h (a :: y) (by simp))
            exact stripL_cons_space y ha
          · exact h y (by simp [h2])
    · rw [lstripL_cons_nospace t (by simpa using ha)] at hx
      exact h x hx

/-- The right-strip analogue of `splitC_lstrip_pred`. -/
theorem splitC_rstrip_pred (c : Char) (_hc : isPySpace c = true) (N : List Char → Prop)
    (HN : ∀ x y, stripL x = stripL y → N x → N y) :
    ∀ l : List Char, (∀ x ∈ splitC c l, N x) → ∀ x ∈ splitC c (rstripL l), N x := by
  intro l h x hx
  have hrs : rstripL l = (lstripL l.reverse).reverse := by
    rw [lstripL_reverse, List.reverse_reverse]
  rw [hrs, splitC_reverse] at hx
  rcases List.mem_reverse.mp hx with hx'
  rcases List.mem_map.mp hx' with ⟨y, hy, hxy⟩
  subst hxy
  have hrev : ∀ z ∈ splitC c l.reverse, N z.reverse := by
    intro z hz
    rw [splitC_reverse] at hz
    rcases List.mem_map.mp (List.mem_reverse.mp hz) with ⟨w, hw, hzw⟩
    subst hzw
    have : N w := h w hw
    simpa using this
  have hstep := splitC_lstrip_pred c _hc (fun z => N z.reverse)
    (fun z w hzw hn => by
      refine HN z.reverse w.reverse ?_ hn
      rw [stripL_reverse, stripL_reverse, hzw])
    l.reverse hrev
  exact hstep y hy

/-- Combined: every line of `stripL l` has the stripped form of some line of
`l`, expressed through a strip-invariant property. -/
theorem splitC_strip_pred (c : Char) (hc : isPySpace c = true) (N : List Char → Prop)
    (HN : ∀ x y, stripL x = stripL y → N x → N y) :
    ∀ l : List Char, (∀ x ∈ splitC c l, N x) → ∀ x ∈ splitC c (stripL l), N x := by
  intro l h
  exact splitC_lstrip_pred c hc N HN (rstripL l) (splitC_rstrip_pred c hc N HN l h)

/-! ## Content Parser lemmas -/

theorem splitImageLines_fst (ls : List String) :
    (splitImageLines ls).1 =
      (ls.filter fun l => isImageDirective l).map imageFileName := by
  induction ls with
  | nil => rfl
  | cons l t ih =>
    simp only [splitImageLines, List.filter_cons]
    by_cases h : isImageDirective l = true <;> simp [h, ih]

theorem splitImageLines_snd (ls : List String) :
    (splitImageLines ls).2 = ls.filter fun l => !isImageDirective l := by
  induction ls with
  | nil => rfl
  | cons l t ih =>
    simp only [splitImageLines, List.filter_cons]
    by_cases h : isImageDirective l = true <;> simp [h, ih]

theorem mk_data_eq (s : String) : (⟨s.data⟩ : String) = s := rfl

theorem map_data_map_mk (L : List (List Char)) :
    (L.map fun l => (⟨l⟩ : String)).map String.data = L := by
  rw [List.map_map]
  have h : (String.data ∘ fun l : List Char => (⟨l⟩ : String)) = id := funext fun l => rfl
  rw [h, List.map_id]

/-- C2: the Content Parser splits its input into lines; each line whose
trimmed, case-insensitive form begins with `IMAGE:` contributes its trimmed
remainder to the image list in encounter order and is excluded from the body;
every other line is appended unchanged to the body, which is newline-joined
and whitespace-trimmed; and for all-non-directive content the image list is
empty and the body is the trimmed original. -/
theorem c2_content_parsing (content : String) :
    (parse_post_content content).images =
      ((pySplit '\n' content).filter fun l => isImageDirective l).map imageFileName
    ∧ (parse_post_content content).text =
      pyStrip ⟨joinC '\n' (((pySplit '\n' content).filter fun l => !isImageDirective l).map
        String.data)⟩
    ∧ ((∀ l ∈ pySplit '\n' content, isImageDirective l = false) →
        (parse_post_content content).images = [] ∧
        (parse_post_content content).text = pyStrip content)
    := by
  refine ⟨?_, ?_, ?_⟩
  · show (splitImageLines (pySplit '\n' content)).1 = _
    exact splitImageLines_fst _
  · show (⟨stripL (joinC '\n' ((splitImageLines (pySplit '\n' content)).2.map String.data))⟩ : String) = _
    rw [splitImageLines_snd]
    rfl
  · intro hall
    constructor
    · show (splitImageLines (pySplit '\n' content)).1 = _
      rw [splitImageLines_fst]
      have : (pySplit '\n' content).filter (fun l => isImageDirective l) = [] := by
        rw [List.filter_eq_nil_iff]
        intro a ha
        simp [hall a ha]
      rw [this]
      rfl
    · show (⟨stripL (joinC '\n' ((splitImageLines (pySplit '\n' content)).2.map String.data))⟩ : String) = _
      rw [splitImageLines_snd]
      have hfil : (pySplit '\n' content).filter (fun l => !isImageDirective l) =
          pySplit '\n' content := by
        rw [List.filter_eq_self]
        intro a ha
        simp [hall a ha]
      rw [hfil]
      show (⟨stripL (joinC '\n' (((splitC '\n' content.data).map fun l => (⟨l⟩ : String)).map String.data))⟩ : String) = _
      rw [map_data_map_mk, joinC_splitC]
      rfl

/-- C2 witness: a concrete all-non-directive content. -/
theorem c2_content_parsing_witness :
    (parse_post_content "hello\n world ").images = [] ∧
    (parse_post_content "hello\n world ").text = pyStrip "hello\n world " :=
  (c2_content_parsing "hello\n world ").2.2 (by decide)

/-- `isImageDirective` at the `List Char` level. -/
def isDirL (l : List Char) : Bool :=
  "IMAGE:".data.isPrefixOf ((stripL l).map Char.toUpper)

theorem parse_text_data (content : String) :
    ((parse_post_content content).text).data =
      stripL (joinC '\n' ((splitC '\n' content.data).filter fun l => !isDirL l)) := by
  show stripL (joinC '\n'
      ((splitImageLines ((splitC '\n' content.data).map fun l => (⟨l⟩ : String))).2.map
        String.data)) = _
  rw [splitImageLines_snd, List.filter_map, map_data_map_mk]
  rfl

theorem parse_text_lines_nondir (content : String) :
    ∀ x ∈ splitC '\n' ((parse_post_content content).text).data, isDirL x = false := by
  rw [parse_text_data]
  by_cases hT : ((splitC '\n' content.data).filter fun l => !isDirL l) = []
  · rw [hT]
    intro x hx
    have hxe : x = [] := by simpa [joinC, stripL, lstripL, rstripL, splitC] using hx
    rw [hxe]
    decide
  · have hTsub : ∀ x ∈ (splitC '\n' content.data).filter (fun l => !isDirL l), '\n' ∉ x :=
      fun x hxm => not_mem_of_mem_splitC '\n' content.data x (List.mem_of_mem_filter hxm)
    have hbase : ∀ x ∈ splitC '\n'
        (joinC '\n' ((splitC '\n' content.data).filter fun l => !isDirL l)),
        isDirL x = false := by
      rw [splitC_joinC '\n' _ hT hTsub]
      intro x hxm
      have := List.of_mem_filter hxm
      simpa using this
    exact splitC_strip_pred '\n' (by decide) (fun x => isDirL x = false)
      (fun x y hxy hn => by
        show isDirL y = false
        unfold isDirL at hn ⊢
        rw [← hxy]
        exact hn)
      _ hbase

/-- C10: the Content Parser is idempotent on the bodies it produces:
re-parsing a produced body yields the same body and no images. -/
theorem c10_parser_idempotent (content : String) :
    parse_post_content ((parse_post_content content).text) =
      { text := (parse_post_content content).text, images := [] } := by
  have hnd := parse_text_lines_nondir content
  have himg : (parse_post_content ((parse_post_content content).text)).images = [] := by
    show (splitImageLines ((splitC '\n' ((parse_post_content content).text).data).map
      fun l => (⟨l⟩ : String))).1 = []
    rw [splitImageLines_fst]
    have hf : ((splitC '\n' ((parse_post_content content).text).data).map
        (fun l => (⟨l⟩ : String))).filter (fun l => isImageDirective l) = [] := by
      rw [List.filter_eq_nil_iff]
      intro a ha
      rcases List.mem_map.mp ha with ⟨y, hy, hya⟩
      subst hya
      have hb : isImageDirective (⟨y⟩ : String) = false := hnd y hy
      simp [hb]
    rw [hf]
    rfl
  have htxt : (parse_post_content ((parse_post_content content).text)).text =
      (parse_post_content content).text := by
    apply String.ext
    rw [parse_text_data ((parse_post_content content).text)]
    have hfil : (splitC '\n' ((parse_post_content content).text).data).filter
        (fun l => !isDirL l) = splitC '\n' ((parse_post_content content).text).data := by
      rw [List.filter_eq_self]
      intro a ha
      simp [hnd a ha]
    rw [hfil, joinC_splitC]
    rw [parse_text_data content, stripL_idem]
  have hgen : ∀ p : ParsedContent, p.text = (parse_post_content content).text →
      p.images = [] → p = { text := (parse_post_content content).text, images := [] } := by
    intro p h1 h2
    cases p
    simp_all
  exact hgen _ htxt himg

/-! ## Page Registry lemmas -/

/-- The `parts` list a config line is split into (src line 56). -/
def configFields (rawLine : String) : List String :=
  (splitC '|' (pyStrip rawLine).data).map fun p => (⟨p⟩ : String)

theorem processConfigLine_placeholder_drop (env : String → Option String)
    (line p1 : String) (h1 : (configFields line).get? 1 = some p1)
    (hd : (pyStrip p1).data.head? = some '$')
    (he : (env ⟨(pyStrip p1).data.tail⟩).getD "" = "") :
    processConfigLine env line = none := by
  simp only [processConfigLine]
  by_cases hblank : pyStrip line = ""
  · simp [hblank]
  · rw [if_neg hblank]
    by_cases hcom : (pyStrip line).data.head? = some '#'
    · rw [if_pos hcom]
    · rw [if_neg hcom]
      rcases hps : (splitC '|' (pyStrip line).data).map (fun p => (⟨p⟩ : String)) with
        _ | ⟨p0, _ | ⟨p1', rest⟩⟩
      · rfl
      · rfl
      · have hp1 : p1' = p1 := by
          have h2 : (configFields line).get? 1 = some p1' := by
            rw [configFields, hps]
            rfl
          rw [h2] at h1
          exact Option.some.inj h1
        rw [hp1]
        simp [hd, he]

theorem processConfigLine_placeholder_token (env : String → Option String)
    (line p1 : String) (h1 : (configFields line).get? 1 = some p1)
    (hd : (pyStrip p1).data.head? = some '$') :
    ∀ p : Page, processConfigLine env line = some p →
      p.token = (env ⟨(pyStrip p1).data.tail⟩).getD "" ∧ p.token ≠ "" := by
  intro p hp
  simp only [processConfigLine] at hp
  by_cases hblank : pyStrip line = ""
  · simp [hblank] at hp
  · rw [if_neg hblank] at hp
    by_cases hcom : (pyStrip line).data.head? = some '#'
    · rw [if_pos hcom] at hp
      exact absurd hp (by simp)
    · rw [if_neg hcom] at hp
      rcases hps : (splitC '|' (pyStrip line).data).map (fun p => (⟨p⟩ : String)) with
        _ | ⟨p0, _ | ⟨p1', rest⟩⟩
      · rw [hps] at hp
        exact absurd hp (by simp)
      · rw [hps] at hp
        exact absurd hp (by simp)
      · have hp1 : p1' = p1 := by
          have h2 : (configFields line).get? 1 = some p1' := by
            rw [configFields, hps]
            rfl
          rw [h2] at h1
          exact Option.some.inj h1
        rw [hps, hp1] at hp
        simp only [hd, reduceIte] at hp
        by_cases he : (env ⟨(pyStrip p1).data.tail⟩).getD "" = ""
        · rw [if_pos he] at hp
          exact absurd hp (by simp)
        · rw [if_neg he] at hp
          have := Option.some.inj hp
          constructor
          · rw [← this]
          · rw [← this]
            exact he

theorem processConfigLine_c6_line (env : String → Option String) :
    processConfigLine env "123|$TOKEN|MyPage" =
      if (env "TOKEN").getD "" = "" then none
      else some { page_id := "123", token := (env "TOKEN").getD "", name := "MyPage" } := rfl

/-- C6: for every config line whose credential field begins with `$`, the
remainder is looked up as an environment-variable name and its value
substituted as the accepted target's credential; when the variable is unset
the target is dropped; lines are processed independently, so subsequent
lines are unaffected either way.  In particular `123|$TOKEN|MyPage` with
`TOKEN=abc` yields the target `{identifier "123", credential "abc",
displayName "MyPage"}` and with `TOKEN` unset is dropped. -/
theorem c6_placeholder_resolution (env : String → Option String)
    (line p1 name : String) (rest : List String)
    (h1 : (configFields line).get? 1 = some p1)
    (hd : (pyStrip p1).data = '$' :: name.data) :
    (∀ p : Page, processConfigLine env line = some p →
      p.token = (env name).getD "")
    ∧ (env name = none → processConfigLine env line = none)
    ∧ (load_facebook_pages true (line :: rest) env =
        match processConfigLine env line with
        | some p => p :: load_facebook_pages true rest env
        | none => load_facebook_pages true rest env)
    ∧ (env "TOKEN" = some "abc" →
        load_facebook_pages true ("123|$TOKEN|MyPage" :: rest) env =
          { page_id := "123", token := "abc", name := "MyPage" } ::
            load_facebook_pages true rest env)
    ∧ (env "TOKEN" = none →
        load_facebook_pages true ("123|$TOKEN|MyPage" :: rest) env =
          load_facebook_pages true rest env) := by
  have hh : (pyStrip p1).data.head? = some '$' := by
    rw [hd]
    rfl
  have ht : (⟨(pyStrip p1).data.tail⟩ : String) = name := by
    rw [hd]
    exact mk_data_eq name
  refine ⟨?_, ?_, ?_, ?_, ?_⟩
  · intro p hp
    have := (processConfigLine_placeholder_token env line p1 h1 hh p hp).1
    rw [ht] at this
    exact this
  · intro he
    apply processConfigLine_placeholder_drop env line p1 h1 hh
    rw [ht, he]
    rfl
  · show List.filterMap (processConfigLine env) (line :: rest) = _
    rw [List.filterMap_cons]
    cases processConfigLine env line <;> rfl
  · intro h
    have hline : processConfigLine env "123|$TOKEN|MyPage" =
        some { page_id := "123", token := "abc", name := "MyPage" } := by
      rw [processConfigLine_c6_line, h]
      rfl
    show List.filterMap (processConfigLine env) ("123|$TOKEN|MyPage" :: rest) = _
    rw [List.filterMap_cons, hline]
    rfl
  · intro h
    have hline : processConfigLine env "123|$TOKEN|MyPage" = none := by
      rw [processConfigLine_c6_line, h]
      rfl
    show List.filterMap (processConfigLine env) ("123|$TOKEN|MyPage" :: rest) = _
    rw [List.filterMap_cons, hline]
    rfl

/-- C6 witness: the concrete line with `TOKEN=abc` in the environment. -/
theorem c6_placeholder_resolution_witness :
    load_facebook_pages true ["123|$TOKEN|MyPage"]
      (fun v => if v = "TOKEN" then some "abc" else none) =
      [{ page_id := "123", token := "abc", name := "MyPage" }] :=
  (c6_placeholder_resolution (fun v => if v = "TOKEN" then some "abc" else none)
    "123|$TOKEN|MyPage" "$TOKEN" "TOKEN" [] (by decide) (by decide)).2.2.2.1 (by decide)

/-- C1 counterexample: the line `|tok|Name` is accepted and yields a target
with an empty identifier, so non-emptiness of identifier and credential is
not enforced for accepted targets. -/
theorem c1_counterexample :
    load_facebook_pages true ["|tok|Name"] (fun _ => none) =
      [{ page_id := "", token := "tok", name := "Name" }] := by decide

/-- C1 (amended): the non-emptiness guarantee holds only for the credential
and only when the credential field is a `$` placeholder: an accepted target
whose credential field begins with `$` has a non-empty credential, and a
placeholder resolving to the empty string is dropped.  Literal credentials
and identifiers, including empty ones, are accepted as written. -/
theorem c1_placeholder_invariant (env : String → Option String) (line p1 : String)
    (h1 : (configFields line).get? 1 = some p1)
    (hd : (pyStrip p1).data.head? = some '$') :
    (∀ p : Page, processConfigLine env line = some p → p.token ≠ "")
    ∧ ((env ⟨(pyStrip p1).data.tail⟩).getD "" = "" → processConfigLine env line = none) := by
  constructor
  · intro p hp
    exact (processConfigLine_placeholder_token env line p1 h1 hd p hp).2
  · intro he
    exact processConfigLine_placeholder_drop env line p1 h1 hd he

/-- C1 witness: a concrete accepted placeholder line has a non-empty token. -/
theorem c1_placeholder_invariant_witness :
    ({ page_id := "1", token := "x", name := "N" } : Page).token ≠ "" :=
  (c1_placeholder_invariant (fun v => if v = "T" then some "x" else none) "1|$T|N" "$T"
    (by decide) (by decide)).1 _ (by decide)

/-- C9: a `$NAME` credential whose environment variable is set to the empty
string is dropped, exactly as when it is unset. -/
theorem c9_empty_equals_unset (env : String → Option String) (line p1 name : String)
    (h1 : (configFields line).get? 1 = some p1)
    (hd : (pyStrip p1).data = '$' :: name.data)
    (he : env name = some "" ∨ env name = none) :
    processConfigLine env line = none := by
  have hh : (pyStrip p1).data.head? = some '$' := by rw [hd]; rfl
  have ht : (⟨(pyStrip p1).data.tail⟩ : String) = name := by
    rw [hd]
    exact mk_data_eq name
  apply processConfigLine_placeholder_drop env line p1 h1 hh
  rw [ht]
  rcases he with he | he <;> rw [he] <;> rfl

/-- C9 witness: concrete line with the variable set to the empty string. -/
theorem c9_empty_equals_unset_witness :
    processConfigLine (fun v => if v = "EV" then some "" else none) "9|$EV|N" = none :=
  c9_empty_equals_unset (fun v => if v = "EV" then some "" else none) "9|$EV|N" "$EV" "EV"
    (by decide) (by decide) (Or.inl (by decide))

/-! ## Post Loader lemmas -/

theorem lexLe_total : ∀ a b : List Char, lexLe a b = true ∨ lexLe b a = true := by
  intro a
  induction a with
  | nil => intro b; left; rfl
  | cons x xs ih =>
    intro b
    cases b with
    | nil => right; rfl
    | cons y ys =>
      by_cases hxy : x = y
      · subst hxy
        rcases ih ys with h | h
        · left; simpa [lexLe] using h
        · right; simpa [lexLe] using h
      · rcases lt_or_gt_of_ne hxy with h | h
        · left; simp [lexLe, hxy, h]
        · right
          have hyx : ¬ y = x := fun he => hxy he.symm
          simp [lexLe, hyx, h]

theorem lexLe_trans : ∀ a b c : List Char,
    lexLe a b = true → lexLe b c = true → lexLe a c = true := by
  intro a
  induction a with
  | nil => intro b c _ _; rfl
  | cons x xs ih =>
    intro b c hab hbc
    cases b with
    | nil => simp [lexLe] at hab
    | cons y ys =>
      cases c with
      | nil => simp [lexLe] at hbc
      | cons z zs =>
        by_cases hxy : x = y <;> by_cases hyz : y = z
        · subst hxy; subst hyz
          simp only [lexLe, if_pos rfl] at hab hbc ⊢
          exact ih ys zs hab hbc
        · subst hxy
          simp only [lexLe, if_neg hyz] at hbc
          have hlt : x < z := by simpa using hbc
          simp [lexLe, hyz, hlt]
        · subst hyz
          simp only [lexLe, if_neg hxy] at hab
          have hlt : x < y := by simpa using hab
          simp [lexLe, hxy, hlt]
        · simp only [lexLe, if_neg hxy] at hab
          simp only [lexLe, if_neg hyz] at hbc
          have h1 : x < y := by simpa using hab
          have h2 : y < z := by simpa using hbc
          have h3 : x < z := lt_trans h1 h2
          have hxz : ¬ x = z := ne_of_lt h3
          simp [lexLe, hxz, h3]

instance strLe.isTotal : IsTotal String strLe :=
  ⟨fun s t => lexLe_total s.data t.data⟩

instance strLe.isTrans : IsTrans String strLe :=
  ⟨fun a b c hab hbc => lexLe_trans a.data b.data c.data hab hbc⟩

/-- C8: the Post Loader enumerates supported files sorted lexicographically
across the combined `.txt` and `.docx` sets: the result is a sorted
permutation of all matching files of both extensions, and concretely, with
files `b.txt` and `a.docx` present, `a.docx` comes first. -/
theorem c8_enumeration_order (fs : List String) :
    List.Sorted strLe (get_all_post_files "posts" fs true)
    ∧ (get_all_post_files "posts" fs true).Perm
        (globExt "posts" fs ".txt" ++ globExt "posts" fs ".docx")
    ∧ get_all_post_files "posts" ["b.txt", "a.docx"] true =
        ["posts/a.docx", "posts/b.txt"] := by
  refine ⟨?_, ?_, by decide⟩
  · exact List.sorted_insertionSort strLe _
  · exact List.perm_insertionSort strLe _

/-! ## Publisher wire-format lemmas -/

/-- Characters on which CPython `repr` escaping (under quote choice `'`)
followed by the quote substitution agrees with JSON string escaping: ASCII
characters that are printable or one of tab, newline, carriage return, and
not one of the two quote characters.  Backslash, tab, newline and carriage
return are escaped identically by both sides. -/
def jsonSafeChar (c : Char) : Bool :=
  (decide (32 ≤ c.toNat) && decide (c.toNat ≤ 126) || decide (c = '\t')
    || decide (c = '\n') || decide (c = '\r'))
    && decide (c ≠ '\'') && decide (c ≠ '"')

theorem escChar_safe (c : Char) (h : jsonSafeChar c = true) :
    (pyReprEsc '\'' c).map quoteSwap = jsonEscChar c := by
  by_cases h1 : c = '\\'
  · subst h1
    decide
  by_cases h2 : c = '\n'
  · subst h2
    decide
  by_cases h3 : c = '\r'
  · subst h3
    decide
  by_cases h4 : c = '\t'
  · subst h4
    decide
  unfold jsonSafeChar at h
  simp only [Bool.and_eq_true, Bool.or_eq_true, decide_eq_true_eq] at h
  obtain ⟨⟨hrange, hq⟩, hdq⟩ := h
  rcases hrange with ((⟨hlo, hhi⟩ | ht) | hn) | hr
  · have ha : ¬ (c.toNat < 32 ∨ c.toNat = 127) := by omega
    have hb8 : ¬ c.toNat = 8 := by omega
    have hb12 : ¬ c.toNat = 12 := by omega
    have hlt : ¬ c.toNat < 32 := by omega
    have h127 : ¬ c.toNat = 127 := by omega
    have h128 : c.toNat < 128 := by omega
    simp [pyReprEsc, jsonEscChar, quoteSwap, h1, h2, h3, h4, hq, hdq, ha, hb8,
      hb12, hlt, h127, h128]
  · exact absurd ht h4
  · exact absurd hn h2
  · exact absurd hr h3

theorem pyRepr_data_no_apos (s : String) (h : ∀ c ∈ s.data, ¬ c = '\'') :
    (pyRepr s).data = '\'' :: ((s.data.map (pyReprEsc '\'')).flatten ++ ['\'']) := by
  have hnc : s.data.contains '\'' = false := by
    by_contra hc
    have hm : '\'' ∈ s.data := by
      have hcc : s.data.contains '\'' = true := by simpa using hc
      simpa using hcc
    exact h _ hm rfl
  have hq : pyReprQuoteChar s.data = '\'' := by
    unfold pyReprQuoteChar
    rw [hnc]
    rfl
  show (pyReprQuoteChar s.data :: ((s.data.map (pyReprEsc (pyReprQuoteChar s.data))).flatten
    ++ [pyReprQuoteChar s.data])) = _
  rw [hq]

theorem map_joinSep (f : Char → Char) (sep : List Char) (xss : List (List Char)) :
    (joinSep sep xss).map f = joinSep (sep.map f) (xss.map (List.map f)) := by
  induction xss with
  | nil => rfl
  | cons x ys ih =>
    cases ys with
    | nil => rfl
    | cons y zs =>
      show ((x ++ sep ++ joinSep sep (y :: zs)).map f) = _
      rw [List.map_append, List.map_append, ih]
      rfl

theorem item_map_quoteSwap (pid : String) (h : ∀ c ∈ pid.data, jsonSafeChar c = true) :
    (lbrace :: ("'media_fbid': ".data ++ (pyRepr pid).data ++ [rbrace])).map quoteSwap
      = lbrace :: ("\"media_fbid\": \"".data ++ (pid.data.map jsonEscChar).flatten
        ++ ('"' :: [rbrace])) := by
  have hnoq : ∀ c ∈ pid.data, ¬ c = '\'' := by
    intro c hc he
    have hsafe := h c hc
    rw [he] at hsafe
    exact absurd hsafe (by decide)
  have hflat : ((pid.data.map (pyReprEsc '\'')).flatten).map quoteSwap
      = (pid.data.map jsonEscChar).flatten := by
    rw [List.map_flatten, List.map_map]
    congr 1
    exact List.map_congr_left fun c hc => escChar_safe c (h c hc)
  rw [pyRepr_data_no_apos pid hnoq]
  have hseg : ("'media_fbid': ".data).map quoteSwap = "\"media_fbid\": ".data := rfl
  have hseg2 : ("\"media_fbid\": \"".data : List Char) = "\"media_fbid\": ".data ++ ['"'] := rfl
  simp only [List.map_cons, List.map_append, hseg, hseg2, hflat]
  simp [quoteSwap, List.append_assoc]
  decide

/-- C3 counterexample: for the id `a'b` the substitution-built field is not
the JSON serialization (CPython `repr` switches to double quotes and the
apostrophe inside the id is itself rewritten). -/
theorem c3_counterexample :
    attachedMediaField ["a'b"] ≠ jsonAttachedMedia ["a'b"] := by decide

/-- C3 (amended): for every non-empty list of media ids whose characters are
ASCII, printable or one of tab, newline and carriage return, and not one of
the two quote characters — backslashes and those control characters are
escaped identically by `repr` and by JSON, so they are covered — the
`attached_media` field is exactly the JSON serialization of
`[{"media_fbid": "<id>"}, ...]`, one entry per uploaded photo, in upload
order.  An id containing an apostrophe, as the counterexample shows, is
corrupted by the quote substitution. -/
theorem c3_attached_media_json (ids : List String) (_hne : ids ≠ [])
    (hsafe : ∀ s ∈ ids, ∀ c ∈ s.data, jsonSafeChar c = true) :
    attachedMediaField ids = jsonAttachedMedia ids := by
  apply String.ext
  show ('[' :: (joinSep ", ".data (ids.map fun pid =>
      lbrace :: ("'media_fbid': ".data ++ (pyRepr pid).data ++ [rbrace])) ++ [']'])).map
        quoteSwap =
    '[' :: (joinSep ", ".data (ids.map fun pid =>
      lbrace :: ("\"media_fbid\": \"".data ++ (pid.data.map jsonEscChar).flatten
        ++ ('"' :: [rbrace]))) ++ [']'])
  rw [List.map_cons, List.map_append, map_joinSep]
  have hsep : (", ".data).map quoteSwap = ", ".data := rfl
  have hbr : (([']'] : List Char)).map quoteSwap = [']'] := rfl
  have hopen : quoteSwap '[' = '[' := rfl
  rw [hsep, hbr, hopen, List.map_map]
  have hitems : ids.map (List.map quoteSwap ∘ fun pid =>
      lbrace :: ("'media_fbid': ".data ++ (pyRepr pid).data ++ [rbrace])) =
      ids.map (fun pid =>
        lbrace :: ("\"media_fbid\": \"".data ++ (pid.data.map jsonEscChar).flatten
          ++ ('"' :: [rbrace]))) :=
    List.map_congr_left fun pid hpid => item_map_quoteSwap pid (hsafe pid hpid)
  rw [hitems]

/-- C3 witness: ids containing a backslash and a newline, covered by the
amended guarantee. -/
theorem c3_attached_media_json_witness :
    attachedMediaField ["a\\b", "12\n3"] = jsonAttachedMedia ["a\\b", "12\n3"] :=
  c3_attached_media_json ["a\\b", "12\n3"] (by decide) (by decide)

/-- C4: for every publish attempt, uploads happen in list order with failed
(and falsy) uploads skipped; the with-photos feed call is used iff at least
one media id was collected, else the text-only call; and the outcome is
success with URL `https://facebook.com/<id>` iff the chosen call's response
carries an `'id'`, failure with the error object's message when present, and
failure with the generic unknown-error message for any other shape. -/
theorem c4_publish_orchestration (env : PosterEnv) (message : String) (paths : List String) :
    (collectPhotoIds env paths = paths.filterMap fun p =>
      match upload_photo (env.imageExists p) (env.uploadResponse p) with
      | some pid => if pid = "" then none else some pid
      | none => none)
    ∧ (∀ r : ApiResponse,
        r = (if collectPhotoIds env paths = [] then env.textOnlyResponse message
             else env.withPhotosResponse message (collectPhotoIds env paths)) →
        ((FacebookPoster.post env message (some paths)).success = true ↔ r.id?.isSome = true)
        ∧ (∀ pid, r.id? = some pid →
            FacebookPoster.post env message (some paths) =
              { success := true, post_id? := some pid,
                url? := some ("https://facebook.com/" ++ pid), error? := none })
        ∧ (∀ e msg, r.id? = none → r.error? = some e → e.message? = some msg →
            FacebookPoster.post env message (some paths) =
              { success := false, post_id? := none, url? := none, error? := some msg })
        ∧ (r.id? = none → (r.error? = none ∨ ∃ e, r.error? = some e ∧ e.message? = none) →
            FacebookPoster.post env message (some paths) =
              { success := false, post_id? := none, url? := none,
                error? := some "Unknown error" })) := by
  constructor
  · induction paths with
    | nil => rfl
    | cons p ps ih =>
      show (match upload_photo (env.imageExists p) (env.uploadResponse p) with
        | some pid => if pid = "" then collectPhotoIds env ps else pid :: collectPhotoIds env ps
        | none => collectPhotoIds env ps) = _
      rw [List.filterMap_cons]
      cases hu : upload_photo (env.imageExists p) (env.uploadResponse p) with
      | none => simpa using ih
      | some pid =>
        by_cases hp : pid = "" <;> simp [hp, ih]
  · intro r hr
    have hpost : FacebookPoster.post env message (some paths) =
        match r.id? with
        | some post_id =>
          { success := true, post_id? := some post_id,
            url? := some ("https://facebook.com/" ++ post_id), error? := none }
        | none =>
          { success := false, post_id? := none, url? := none,
            error? := some (match r.error? with
              | some e => e.message?.getD "Unknown error"
              | none => "Unknown error") } := by
      rw [hr]
      unfold FacebookPoster.post
      cases hie : collectPhotoIds env paths with
      | nil => simp [hie]
      | cons q qs => simp [hie]
    refine ⟨?_, ?_, ?_, ?_⟩
    · rw [hpost]
      cases hid : r.id? <;> simp [hid]
    · intro pid hid
      rw [hpost, hid]
    · intro e msg hid herr hmsg
      rw [hpost, hid, herr]
      simp [hmsg]
    · intro hid herr
      rw [hpost, hid]
      rcases herr with herr | ⟨e, herr, hmsg⟩
      · rw [herr]
      · rw [herr]
        simp [hmsg]

/-- Network behaviour for the C4 witness: one existing image whose upload
succeeds, one missing image, and a successful with-photos publish. -/
def c4WitnessEnv : PosterEnv :=
  { imageExists := fun p => p == "images/a.jpg",
    uploadResponse := fun _ => { id? := some "m1", error? := none },
    withPhotosResponse := fun _ _ => { id? := some "P1", error? := none },
    textOnlyResponse := fun _ => { id? := none, error? := none } }

/-- C4 witness: the missing image is skipped, the with-photos path is taken,
and the response id yields success with the canonical URL. -/
theorem c4_publish_orchestration_witness :
    FacebookPoster.post c4WitnessEnv "hi" (some ["images/a.jpg", "images/missing.jpg"]) =
      { success := true, post_id? := some "P1",
        url? := some "https://facebook.com/P1", error? := none } :=
  ((c4_publish_orchestration c4WitnessEnv "hi" ["images/a.jpg", "images/missing.jpg"]).2
    { id? := some "P1", error? := none } (by decide)).2.1 "P1" (by decide)

/-! ## Orchestrator claims -/

/-- C5: each fatal precondition (missing posts directory, empty registry,
zero reachable targets, zero loadable posts) exits non-zero; a run that
reaches the summary exits non-zero iff `total_failed > 0`; a user interrupt
exits `0`. -/
theorem c5_exit_codes (w : World) :
    (w.postsDirExists = false → mainExit w = 1)
    ∧ (pagesOf w = [] → mainExit w = 1)
    ∧ (validPagesOf w = [] → mainExit w = 1)
    ∧ (postsOf w = [] → mainExit w = 1)
    ∧ (w.postsDirExists = true → pagesOf w ≠ [] → validPagesOf w ≠ [] → postsOf w ≠ [] →
        (mainExit w ≠ 0 ↔ 0 < totalFailedOf w))
    ∧ topLevelExitCode MainOutcome.interrupted = 0 := by
  refine ⟨?_, ?_, ?_, ?_, ?_, rfl⟩
  · intro h
    unfold mainExit
    split_ifs with h1 <;> try rfl
    exact absurd (by simp [h]) h1
  · intro h
    unfold mainExit
    split_ifs <;> rfl
  · intro h
    unfold mainExit
    split_ifs <;> rfl
  · intro h
    unfold mainExit
    split_ifs <;> rfl
  · intro hde hp hv hpost
    have h1 : ¬ ((!w.postsDirExists) = true) := by simp [hde]
    have hf : ¬ postFilesOf w = [] := by
      intro hfe
      apply hpost
      unfold postsOf
      rw [hfe]
      rfl
    unfold mainExit
    rw [if_neg h1, if_neg hp, if_neg hv, if_neg hf, if_neg hpost]
    by_cases htf : 0 < totalFailedOf w <;> simp [htf]

/-- A world for the C5 witness in which the posts directory is missing. -/
def c5WitnessWorld : World :=
  { postsDirExists := false, configExists := false, configLines := [],
    env := fun _ => none, connOk := fun _ => false, postsDirFiles := [],
    docxSupport := false, fileContent := fun _ => none, imageExists := fun _ => false,
    uploadResponse := fun _ _ => { id? := none, error? := none },
    withPhotosResponse := fun _ _ _ => { id? := none, error? := none },
    textOnlyResponse := fun _ _ => { id? := none, error? := none } }

/-- C5 witness: the missing posts directory exits non-zero. -/
theorem c5_exit_codes_witness : mainExit c5WitnessWorld = 1 :=
  (c5_exit_codes c5WitnessWorld).1 rfl

/-- C7: referenced images that do not resolve in the images directory are
dropped from the post's resolved list (the others kept, in order); when none
resolves the publish call for the pair is made with no images, i.e.
text-only, and succeeds whenever the text-only response has an id — the post
is not failed by the missing image. -/
theorem c7_missing_image_tolerance (w : World) (pg : Page) (post : PostData) :
    (resolveImagePaths w post.images =
      (post.images.filter fun img => w.imageExists ("images/" ++ img)).map
        fun img => "images/" ++ img)
    ∧ ((∀ img ∈ post.images, w.imageExists ("images/" ++ img) = false) →
        pairResult w pg post = FacebookPoster.post (posterEnvOf w pg) post.text none
        ∧ ∀ pid, (w.textOnlyResponse pg post.text).id? = some pid →
            (pairResult w pg post).success = true) := by
  constructor
  · unfold resolveImagePaths
    induction post.images with
    | nil => rfl
    | cons i t ih =>
      rw [List.filterMap_cons, List.filter_cons]
      by_cases hi : w.imageExists ("images/" ++ i) = true
      · simp only [hi, if_true, List.map_cons]
        rw [← ih]
      · have hi' : w.imageExists ("images/" ++ i) = false := by simpa using hi
        simp only [hi', Bool.false_eq_true, if_false]
        rw [← ih]
  · intro hmiss
    have hres : resolveImagePaths w post.images = [] := by
      unfold resolveImagePaths
      rw [List.filterMap_eq_nil_iff]
      intro img himg
      simp [hmiss img himg]
    constructor
    · unfold pairResult
      rw [hres]
      rfl
    · intro pid hpid
      unfold pairResult
      rw [hres]
      show (FacebookPoster.post (posterEnvOf w pg) post.text none).success = true
      unfold FacebookPoster.post
      simp only [Option.getD_none, collectPhotoIds, List.isEmpty_nil, if_true]
      simp [posterEnvOf, hpid]

/-- A world for the C7 witness: no image resolves, the text-only publish
succeeds. -/
def c7WitnessWorld : World :=
  { postsDirExists := true, configExists := false, configLines := [],
    env := fun _ => none, connOk := fun _ => true, postsDirFiles := [],
    docxSupport := false, fileContent := fun _ => none, imageExists := fun _ => false,
    uploadResponse := fun _ _ => { id? := none, error? := none },
    withPhotosResponse := fun _ _ _ => { id? := none, error? := none },
    textOnlyResponse := fun _ _ => { id? := some "T1", error? := none } }

/-- C7 witness: a post whose only referenced image is missing still
publishes successfully via the text-only call. -/
theorem c7_missing_image_tolerance_witness :
    (pairResult c7WitnessWorld { page_id := "1", token := "t", name := "n" }
      { filename := "p.txt", text := "hello", images := ["nope.jpg"] }).success = true :=
  ((c7_missing_image_tolerance c7WitnessWorld
    { page_id := "1", token := "t", name := "n" }
    { filename := "p.txt", text := "hello", images := ["nope.jpg"] }).2
    (by decide)).2 "T1" (by decide)
